import Mathlib

/- Verification development for the write-path storage core of the
   influxdb_iox repository: the replicated-write envelope encoder of
   `internal_types/src/data.rs` and the mutable-buffer typed column of
   `mutable_buffer/src/column.rs`.

   Conventions of the shallow embedding:
   * Rust strings (`String` / `&str`) are modelled as lists of bytes
     (`Str := List Nat`); Rust's `Ord` on `String` is byte-wise
     lexicographic, modelled by `lexLt`.
   * Machine integers are `Nat` / `Int`; no arithmetic is performed on
     them by the modelled code, so no wrap-around modelling is needed.
   * `f64` values are carried opaquely as their 64-bit pattern (a `Nat`);
     the modelled code never computes with floats, it only moves them.
   * Calls to `Utc::now()` are modelled by an explicit clock
     `now : Nat → Int` together with a call counter threaded through the
     code: the k-th call of the program returns `now k`. -/

namespace InfluxSpec

/-- Byte strings: the model of Rust `String` / `&str` (UTF-8 bytes). -/
abbrev Str := List Nat

/-- Byte-wise lexicographic strict order on byte strings; the model of
Rust's `Ord for String`, which drives `BTreeMap` iteration order. -/
def lexLt : Str → Str → Bool
  | [], [] => false
  | [], _ :: _ => true
  | _ :: _, [] => false
  | a :: as, b :: bs =>
    if a < b then true
    else if a = b then lexLt as bs
    else false

/-- Field values of a parsed line-protocol line
(`influxdb_line_protocol::FieldValue`, an external input type; spec §3).
`f64` carries the opaque 64-bit pattern. -/
inductive FieldValue where
  | i64 (v : Int)
  | u64 (v : Nat)
  | f64 (bits : Nat)
  | boolean (v : Bool)
  | str (s : Str)
deriving DecidableEq, Repr

/-- The `series` part of a `ParsedLine`: measurement name and optional tag set. -/
structure ParsedSeries where
  measurement : Str
  tag_set : Option (List (Str × Str))
deriving DecidableEq, Repr

/-- A parsed line-protocol line (external input type; spec §3): measurement,
tags in input order, fields in input order, optional nanosecond timestamp. -/
structure ParsedLine where
  series : ParsedSeries
  field_set : List (Str × FieldValue)
  timestamp : Option Int
deriving DecidableEq, Repr

/-- Modelled from the spec: `TIME_COLUMN_NAME` (`internal_types/src/schema.rs`,
not under src/). Spec §4.D: "the reserved timestamp column is named by the
fixed domain constant `time`". Bytes of "time". -/
def TIME_COLUMN_NAME : Str := [116, 105, 109, 101]

/-- Modelled from the spec: the `wb::ColumnValue` union member carried by a
`Value` (generated flatbuffers code, not under src/); spec §6.1. -/
inductive ColumnValue where
  | tag (v : Str)
  | i64 (v : Int)
  | u64 (v : Nat)
  | f64 (bits : Nat)
  | bool (v : Bool)
  | str (v : Str)
deriving DecidableEq, Repr

/-- Modelled from the spec: `wb::Value` — `{ column, value_type, value }`
(spec §6.1); `value_type` is determined by the `ColumnValue` constructor. -/
structure Value where
  column : Str
  value : ColumnValue
deriving DecidableEq, Repr

/-- Modelled from the spec: `wb::Row { values: [Value] }` (spec §6.1). -/
structure Row where
  values : List Value
deriving DecidableEq, Repr

/-- Modelled from the spec: `wb::TableWriteBatch { name, rows }` (spec §6.1). -/
structure TableWriteBatch where
  name : Str
  rows : List Row
deriving DecidableEq, Repr

/-- Modelled from the spec: `wb::WriteBufferEntry { partition_key: string?,
table_batches }` (spec §6.1). -/
structure WriteBufferEntry where
  partition_key : Option Str
  table_batches : List TableWriteBatch
deriving DecidableEq, Repr

/-- Modelled from the spec: `wb::WriteBufferBatch { entries }` (spec §6.1);
the flatbuffers `entries` vector field is optional, hence the `Option`. -/
structure WriteBufferBatch where
  entries : Option (List WriteBufferEntry)
deriving DecidableEq, Repr

/- ## Serialization to payload bytes

Modelled from the spec: the source serializes via generated flatbuffers code
(not under src/); spec §6.1 requires only "a flat-buffer-style self-describing
binary layout ... a conforming implementation MAY reuse any schema language
that yields the same logical tree with stable field ordering".  We use a
deterministic length-prefixed encoding of that logical tree; a model byte is
an unbounded `Nat` token. -/

/-- Length-prefixed byte-string encoding. -/
def serStr (s : Str) : List Nat := s.length :: s

/-- Signed 64-bit integer encoding: a sign token then the magnitude. -/
def serInt : Int → List Nat
  | .ofNat n => [0, n]
  | .negSucc n => [1, n]

/-- Optional-field encoding: a presence token then the value, if any. -/
def serOpt (f : α → List Nat) : Option α → List Nat
  | none => [0]
  | some x => 1 :: f x

/-- Concatenated encodings of the items of a list. -/
def serItems (f : α → List Nat) : List α → List Nat
  | [] => []
  | x :: xs => f x ++ serItems f xs

/-- Count-prefixed list encoding. -/
def serList (f : α → List Nat) (xs : List α) : List Nat :=
  xs.length :: serItems f xs

/-- Union-member encoding: the `value_type` discriminant of spec §6.1
(`NONE=0, TagValue=1, I64Value=2, U64Value=3, F64Value=4, BoolValue=5,
StringValue=6`) followed by the member's payload. -/
def serColumnValue : ColumnValue → List Nat
  | .tag v => 1 :: serStr v
  | .i64 v => 2 :: serInt v
  | .u64 v => 3 :: [v]
  | .f64 b => 4 :: [b]
  | .bool v => 5 :: [if v then 1 else 0]
  | .str v => 6 :: serStr v

def serValue (v : Value) : List Nat :=
  serStr v.column ++ serColumnValue v.value

def serRow (r : Row) : List Nat :=
  serList serValue r.values

def serTableWriteBatch (t : TableWriteBatch) : List Nat :=
  serStr t.name ++ serList serRow t.rows

def serWriteBufferEntry (e : WriteBufferEntry) : List Nat :=
  serOpt serStr e.partition_key ++ serList serTableWriteBatch e.table_batches

def serWriteBufferBatch (b : WriteBufferBatch) : List Nat :=
  serOpt (serList serWriteBufferEntry) b.entries

/- ## CRC32 (IEEE), the model of the `crc32fast::Hasher`
(external crate; spec §6.1: "CRC32 (IEEE polynomial)" over payload bytes):
init `0xFFFFFFFF`, reflected polynomial `0xEDB88320`, final xor
`0xFFFFFFFF`. -/

/-- One bit-step of the reflected CRC32 division. -/
def crc32Round (c : Nat) : Nat :=
  if c % 2 = 1 then (c / 2) ^^^ 0xEDB88320 else c / 2

/-- Iterate the bit-step `k` times. -/
def crc32Rounds : Nat → Nat → Nat
  | 0, c => c
  | k + 1, c => crc32Rounds k (crc32Round c)

/-- Absorb one byte into the running CRC. -/
def crc32Update (crc b : Nat) : Nat :=
  crc32Rounds 8 (crc ^^^ b)

/-- CRC32 (IEEE) of a byte sequence. -/
def crc32 (bs : List Nat) : Nat :=
  0xFFFFFFFF ^^^ bs.foldl crc32Update 0xFFFFFFFF

/- ## The encoder of `internal_types/src/data.rs` -/

/-- Model of `BTreeMap::entry(k).or_insert_with(Vec::new).push(v)` on a map
represented as an association list sorted ascending by `lexLt`: the value
`v` is appended to the bucket of key `k`, creating the bucket at its sorted
position if absent. -/
def bmInsert (k : Str) (v : α) : List (Str × List α) → List (Str × List α)
  | [] => [(k, [v])]
  | (k', vs) :: rest =>
    if lexLt k k' then (k, [v]) :: (k', vs) :: rest
    else if k = k' then (k', vs ++ [v]) :: rest
    else (k', vs) :: bmInsert k v rest

/-- Build the sorted partition map from the input lines, in input order
(the loop over `lines` in `split_lines_into_write_entry_partitions`, and
likewise the loop over measurements in `add_write_entry`). -/
def bmOfList (keyFn : α → Str) (xs : List α) : List (Str × List α) :=
  xs.foldl (fun m x => bmInsert (keyFn x) x m) []

/-- Map a clock-counter-threading function over a list, threading the
counter left to right (sequential calls in Rust iteration order). -/
def mapAccum (f : Nat → α → β × Nat) : Nat → List α → List β × Nat
  | cnt, [] => ([], cnt)
  | cnt, x :: xs =>
    let (y, cnt') := f cnt x
    let (ys, cnt'') := mapAccum f cnt' xs
    (y :: ys, cnt'')

/-- `add_tag_value`: a tag cell of a row. -/
def add_tag_value (column v : Str) : Value :=
  { column := column, value := .tag v }

/-- The field-value dispatch of `add_line` (`add_i64_value` etc.). -/
def fieldValueCell (column : Str) : FieldValue → Value
  | .i64 v => { column := column, value := .i64 v }
  | .u64 v => { column := column, value := .u64 v }
  | .f64 b => { column := column, value := .f64 b }
  | .boolean v => { column := column, value := .bool v }
  | .str s => { column := column, value := .str s }

/-- The tag cells of a row: the line's tags in input order (the first loop
of `add_line`). -/
def rowTagValues (line : ParsedLine) : List Value :=
  (line.series.tag_set.getD []).map fun cv => add_tag_value cv.1 cv.2

/-- The field cells of a row: the line's fields in input order (the second
loop of `add_line`). -/
def rowFieldValues (line : ParsedLine) : List Value :=
  line.field_set.map fun cv => fieldValueCell cv.1 cv.2

/-- The trailing `time` cell of a row. -/
def timeValue (t : Int) : Value :=
  { column := TIME_COLUMN_NAME, value := .i64 t }

/-- `add_line`: one row from one parsed line — the tags in input order, then
the fields in input order, then a trailing `time` value.  A line without a
timestamp takes a fresh `Utc::now()` reading (`now cnt`, advancing the call
counter); a line with a timestamp consumes no clock reading. -/
def add_line (now : Nat → Int) (cnt : Nat) (line : ParsedLine) : Row × Nat :=
  let time := match line.timestamp with
    | some t => t
    | none => now cnt
  let cnt' := match line.timestamp with
    | some _ => cnt
    | none => cnt + 1
  ({ values := rowTagValues line ++ rowFieldValues line ++ [timeValue time] }, cnt')

/-- `add_table_batch`: the rows of one table, in input order. -/
def add_table_batch (now : Nat → Int) (cnt : Nat) (name : Str) (lines : List ParsedLine) :
    TableWriteBatch × Nat :=
  let r := mapAccum (fun c l => add_line now c l) cnt lines
  ({ name := name, rows := r.1 }, r.2)

/-- `add_write_entry`: group one partition's lines by measurement into a
sorted `BTreeMap` and emit one `TableWriteBatch` per measurement. -/
def add_write_entry (now : Nat → Int) (cnt : Nat) (partition_key : Option Str)
    (lines : List ParsedLine) : WriteBufferEntry × Nat :=
  let table_batches := bmOfList (fun l => l.series.measurement) lines
  let r := mapAccum (fun c kv => add_table_batch now c kv.1 kv.2) cnt table_batches
  ({ partition_key := partition_key, table_batches := r.1 }, r.2)

/-- The logical `WriteBufferBatch` built by
`split_lines_into_write_entry_partitions`: lines grouped by partition key in
a sorted `BTreeMap`, one `WriteBufferEntry` per key. -/
def buildWriteBufferBatch (partition_key_fn : ParsedLine → Str) (lines : List ParsedLine)
    (now : Nat → Int) (cnt : Nat) : WriteBufferBatch × Nat :=
  let partition_writes := bmOfList partition_key_fn lines
  let r := mapAccum (fun c kv => add_write_entry now c (some kv.1) kv.2) cnt partition_writes
  ({ entries := some r.1 }, r.2)

/-- `split_lines_into_write_entry_partitions`: the serialized bytes of the
logical batch. -/
def split_lines_into_write_entry_partitions (partition_key_fn : ParsedLine → Str)
    (lines : List ParsedLine) (now : Nat → Int) (cnt : Nat) : List Nat × Nat :=
  let r := buildWriteBufferBatch partition_key_fn lines now cnt
  (serWriteBufferBatch r.1, r.2)

/- ## The envelope (`ReplicatedWrite`) -/

/-- Modelled from the spec: the outer flatbuffers framing of a
`ReplicatedWrite` (spec §6.1): `writer: u32`, `sequence: u64`,
`checksum: u32`, optional `payload: bytes`, as tokens. -/
def serEnvelope (writer sequence checksum : Nat) (payload : Option (List Nat)) : List Nat :=
  writer :: sequence :: checksum :: serOpt serStr payload

/-- The decoded envelope plus its zero-copy views: the model of the
self-referencing `ReplicatedWrite` struct (raw `data` bytes, the decoded
header fields, and the decoded `WriteBufferBatch` of the payload, if a
payload is present). -/
structure ReplicatedWrite where
  data : List Nat
  writer : Nat
  sequence : Nat
  checksum : Nat
  payload : Option (List Nat)
  write_buffer_batch : Option WriteBufferBatch
deriving DecidableEq, Repr

/-- `ReplicatedWrite::writer_and_sequence`. -/
def ReplicatedWrite.writer_and_sequence (rw : ReplicatedWrite) : Nat × Nat :=
  (rw.writer, rw.sequence)

/-- `ReplicatedWrite::equal_to_writer_and_sequence`. -/
def ReplicatedWrite.equal_to_writer_and_sequence (rw : ReplicatedWrite)
    (writer_id sequence_number : Nat) : Bool :=
  rw.writer == writer_id && rw.sequence == sequence_number

/-- `ReplicatedWrite::entry_count`: the double `map_or 0` over the optional
batch and its optional `entries` vector. -/
def ReplicatedWrite.entry_count (rw : ReplicatedWrite) : Nat :=
  match rw.write_buffer_batch with
  | none => 0
  | some wbb =>
    match wbb.entries with
    | none => 0
    | some entries => entries.length

/- ## Payload and envelope parsers (the decode side of the flatbuffers
access, modelled from the spec as the inverse of the encoding above).
Each parser consumes a prefix of the tokens and returns the decoded value
with the remaining tokens, or `none` on a framing/bounds failure
(`InvalidFlatbuffer`). -/

def parseTok : List Nat → Option (Nat × List Nat)
  | [] => none
  | t :: r => some (t, r)

def parseInt : List Nat → Option (Int × List Nat)
  | 0 :: n :: r => some ((n : Int), r)
  | 1 :: n :: r => some (Int.negSucc n, r)
  | _ => none

def parseStr : List Nat → Option (Str × List Nat)
  | [] => none
  | l :: r => if l ≤ r.length then some (r.take l, r.drop l) else none

def parseOpt (p : List Nat → Option (α × List Nat)) : List Nat → Option (Option α × List Nat)
  | 0 :: r => some (none, r)
  | 1 :: r =>
    match p r with
    | some (x, r') => some (some x, r')
    | none => none
  | _ => none

def parseItems (p : List Nat → Option (α × List Nat)) : Nat → List Nat → Option (List α × List Nat)
  | 0, r => some ([], r)
  | n + 1, r =>
    match p r with
    | none => none
    | some (x, r₁) =>
      match parseItems p n r₁ with
      | none => none
      | some (xs, r₂) => some (x :: xs, r₂)

def parseList (p : List Nat → Option (α × List Nat)) (r : List Nat) :
    Option (List α × List Nat) :=
  match parseTok r with
  | none => none
  | some (n, r₁) => parseItems p n r₁

def parseColumnValue : List Nat → Option (ColumnValue × List Nat)
  | 1 :: r => (parseStr r).map fun (s, r') => (.tag s, r')
  | 2 :: r => (parseInt r).map fun (v, r') => (.i64 v, r')
  | 3 :: v :: r => some (.u64 v, r)
  | 4 :: b :: r => some (.f64 b, r)
  | 5 :: v :: r => some (.bool (v == 1), r)
  | 6 :: r => (parseStr r).map fun (s, r') => (.str s, r')
  | _ => none

def parseValue (r : List Nat) : Option (Value × List Nat) :=
  match parseStr r with
  | none => none
  | some (c, r₁) =>
    match parseColumnValue r₁ with
    | none => none
    | some (v, r₂) => some ({ column := c, value := v }, r₂)

def parseRow (r : List Nat) : Option (Row × List Nat) :=
  (parseList parseValue r).map fun (vs, r') => ({ values := vs }, r')

def parseTableWriteBatch (r : List Nat) : Option (TableWriteBatch × List Nat) :=
  match parseStr r with
  | none => none
  | some (name, r₁) =>
    match parseList parseRow r₁ with
    | none => none
    | some (rows, r₂) => some ({ name := name, rows := rows }, r₂)

def parseWriteBufferEntry (r : List Nat) : Option (WriteBufferEntry × List Nat) :=
  match parseOpt parseStr r with
  | none => none
  | some (key, r₁) =>
    match parseList parseTableWriteBatch r₁ with
    | none => none
    | some (tbs, r₂) => some ({ partition_key := key, table_batches := tbs }, r₂)

def parseWriteBufferBatch (r : List Nat) : Option (WriteBufferBatch × List Nat) :=
  (parseOpt (parseList parseWriteBufferEntry) r).map fun (es, r') =>
    ({ entries := es }, r')

/-- `impl TryFrom<Vec<u8>> for ReplicatedWrite`: decode the outer framing
and, when a payload is present, decode it as a `WriteBufferBatch`; any
parse failure is the `InvalidFlatbuffer` error (`none`). -/
def ReplicatedWrite.try_from (data : List Nat) : Option ReplicatedWrite :=
  match parseTok data with
  | none => none
  | some (writer, r₁) =>
    match parseTok r₁ with
    | none => none
    | some (sequence, r₂) =>
      match parseTok r₂ with
      | none => none
      | some (checksum, r₃) =>
        match parseOpt parseStr r₃ with
        | none => none
        | some (payload, _) =>
          match payload with
          | none =>
            some { data := data, writer := writer, sequence := sequence,
                   checksum := checksum, payload := none, write_buffer_batch := none }
          | some p =>
            match parseWriteBufferBatch p with
            | none => none
            | some (wbb, _) =>
              some { data := data, writer := writer, sequence := sequence,
                     checksum := checksum, payload := some p,
                     write_buffer_batch := some wbb }

/-- `lines_to_replicated_write`: capture `default_time` (the first clock
reading), build and serialize the partitioned batch (further clock readings
are taken inside `add_line` for lines without timestamps), CRC32 the payload
bytes, frame the envelope, and decode it back (`try_from ... .expect`, the
`expect` panic modelled as `none`).  The partitioner is modelled from the
spec (§6.3) as a pure function `partition_key(line, default_time) → string`;
the source's `.unwrap()` of its `Result` is not modelled. -/
def lines_to_replicated_write (writer sequence : Nat) (lines : List ParsedLine)
    (partitioner : ParsedLine → Int → Str) (now : Nat → Int) : Option ReplicatedWrite :=
  let default_time := now 0
  let entry_bytes := (split_lines_into_write_entry_partitions
    (fun line => partitioner line default_time) lines now 1).1
  let checksum := crc32 entry_bytes
  ReplicatedWrite.try_from (serEnvelope writer sequence checksum (some entry_bytes))

/- ## The mutable-buffer typed column (`mutable_buffer/src/column.rs`) -/

/-- Modelled from the spec: per-column statistics
(`data_types::partition_metadata::StatValues`, not under src/); spec §4.B:
`{ min, max, count, null_count }`, `update(v)` for a non-null value advances
`count` and updates `min`/`max`. -/
structure StatValues (α : Type) where
  min : α
  max : α
  count : Nat
  null_count : Nat
deriving DecidableEq, Repr

/-- Modelled from the spec: `StatValues::new(v)` — statistics initialized
from the first non-null value (spec §4.B). -/
def StatValues.init (v : α) : StatValues α :=
  { min := v, max := v, count := 1, null_count := 0 }

/-- Modelled from the spec: `StatValues::update(v)` / `update_string` for a
non-null value, parameterized by the kind's min/max combinators (spec §4.B):
advances `count`, updates `min`/`max`, leaves `null_count` alone. -/
def StatValues.updateWith (mn mx : α → α → α) (s : StatValues α) (v : α) : StatValues α :=
  { min := mn s.min v, max := mx s.max v, count := s.count + 1, null_count := s.null_count }

/-- Modelled from the spec: the null side of the §4.B contract ("nulls
advance `null_count`"); `column.rs` never invokes it. -/
def StatValues.update_null (s : StatValues α) : StatValues α :=
  { s with null_count := s.null_count + 1 }

/-- String min: keep the lexicographically smaller (`if v < min`). -/
def strMin (m v : Str) : Str := if lexLt v m then v else m

/-- String max: keep the lexicographically larger (`if v > max`). -/
def strMax (m v : Str) : Str := if lexLt m v then v else m

/-- `StatValues::update_string`. -/
def StatValues.update_string (s : StatValues Str) (v : Str) : StatValues Str :=
  s.updateWith strMin strMax v

/-- `f64` bit patterns carry no modelled arithmetic; min/max of the model
order on patterns (no claim depends on f64 ordering). -/
def StatValues.updateF64 (s : StatValues Nat) (v : Nat) : StatValues Nat :=
  s.updateWith Nat.min Nat.max v

def StatValues.updateI64 (s : StatValues Int) (v : Int) : StatValues Int :=
  s.updateWith Min.min Max.max v

def StatValues.updateU64 (s : StatValues Nat) (v : Nat) : StatValues Nat :=
  s.updateWith Nat.min Nat.max v

def boolMin (m v : Bool) : Bool := m && v

def boolMax (m v : Bool) : Bool := m || v

def StatValues.updateBool (s : StatValues Bool) (v : Bool) : StatValues Bool :=
  s.updateWith boolMin boolMax v

/-- Modelled from the spec: the tag dictionary
(`mutable_buffer/src/dictionary.rs`, not under src/); spec §4.A: a bijection
between strings and dense IDs `[0, N)`, new values allocated the next ID. -/
structure Dictionary where
  values : List Str
deriving DecidableEq, Repr

/-- Position of `s` in the dictionary's id-indexed vector. -/
def dictIndex (s : Str) : List Str → Option Nat
  | [] => none
  | v :: vs =>
    if v = s then some 0
    else (dictIndex s vs).map (· + 1)

/-- Modelled from the spec: `Dictionary::lookup_value_or_insert` (spec §4.A):
return the existing id, or allocate the next id for an unseen value. -/
def Dictionary.lookup_value_or_insert (d : Dictionary) (s : Str) : Nat × Dictionary :=
  match dictIndex s d.values with
  | some id => (id, d)
  | none => (d.values.length, { values := d.values ++ [s] })

/-- `generated_types::entry::LogicalColumnType` (modelled from the spec,
§4.C: `logical_type ∈ {Tag, Field}`). -/
inductive LogicalColumnType where
  | tag
  | field
deriving DecidableEq, Repr

/-- `Column`: per-kind storage pairing a nullable value sequence with
statistics.  `F64` cells are 64-bit patterns, `Tag` cells are dictionary
IDs. -/
inductive Column where
  | f64 (vals : List (Option Nat)) (stats : StatValues Nat)
  | i64 (vals : List (Option Int)) (stats : StatValues Int)
  | u64 (vals : List (Option Nat)) (stats : StatValues Nat)
  | string (vals : List (Option Str)) (stats : StatValues Str)
  | bool (vals : List (Option Bool)) (stats : StatValues Bool)
  | tag (vals : List (Option Nat)) (stats : StatValues Str)
deriving DecidableEq, Repr

/-- `internal_types::entry::TypedValuesIterator` (modelled from the spec /
its use in `column.rs`): one typed run of nullable values. -/
inductive TypedValuesIterator where
  | string (vals : List (Option Str))
  | i64 (vals : List (Option Int))
  | f64 (vals : List (Option Nat))
  | u64 (vals : List (Option Nat))
  | bool (vals : List (Option Bool))
deriving DecidableEq, Repr

/-- The error enum of `column.rs` (`TypeMismatch` carries the
`type_description` strings of the existing column and the inserted
values). -/
inductive ColumnError where
  | unknownColumnType (inserted_value_type : String)
  | typeMismatch (existing_column_type inserted_value_type : String)
  | internalTypeMismatchForTimePredicate
deriving DecidableEq, Repr

/-- `Column::type_description`. -/
def Column.type_description : Column → String
  | .f64 _ _ => "f64"
  | .i64 _ _ => "i64"
  | .u64 _ _ => "u64"
  | .string _ _ => "String"
  | .bool _ _ => "bool"
  | .tag _ _ => "tag"

/-- `TypedValuesIterator::type_description` (modelled from the spec's stable
short names, §4.C). -/
def TypedValuesIterator.type_description : TypedValuesIterator → String
  | .string _ => "String"
  | .i64 _ => "i64"
  | .f64 _ => "f64"
  | .u64 _ => "u64"
  | .bool _ => "bool"

/-- `Column::len`. -/
def Column.len : Column → Nat
  | .f64 v _ => v.length
  | .i64 v _ => v.length
  | .u64 v _ => v.length
  | .string v _ => v.length
  | .bool v _ => v.length
  | .tag v _ => v.length

/-- The `count` field of the column's statistics. -/
def Column.statsCount : Column → Nat
  | .f64 _ s => s.count
  | .i64 _ s => s.count
  | .u64 _ s => s.count
  | .string _ s => s.count
  | .bool _ s => s.count
  | .tag _ s => s.count

/-- The `null_count` field of the column's statistics. -/
def Column.statsNullCount : Column → Nat
  | .f64 _ s => s.null_count
  | .i64 _ s => s.null_count
  | .u64 _ s => s.null_count
  | .string _ s => s.null_count
  | .bool _ s => s.null_count
  | .tag _ s => s.null_count

/-- Count of the non-null entries of a nullable sequence. -/
def nonNulls (vs : List (Option α)) : Nat :=
  (vs.filter Option.isSome).length

/-- Count of the non-null entries of the column's value sequence. -/
def Column.nonNullLen : Column → Nat
  | .f64 v _ => nonNulls v
  | .i64 v _ => nonNulls v
  | .u64 v _ => nonNulls v
  | .string v _ => nonNulls v
  | .bool v _ => nonNulls v
  | .tag v _ => nonNulls v

/-- The statistics loop of `new_from_typed_values` for scalar kinds: start
with no statistics, initialize on the first non-null value, update on every
further non-null value. -/
def statsScan (upd : StatValues α → α → StatValues α) :
    Option (StatValues α) → List (Option α) → Option (StatValues α)
  | st, [] => st
  | st, none :: rest => statsScan upd st rest
  | st, some v :: rest =>
    match st with
    | some s => statsScan upd (some (upd s v)) rest
    | none => statsScan upd (some (StatValues.init v)) rest

/-- The tag path of `new_from_typed_values`: intern each non-null value in
input order, threading the dictionary, collecting ids and statistics. -/
def tagScan (d : Dictionary) (st : Option (StatValues Str)) (acc : List (Option Nat)) :
    List (Option Str) → List (Option Nat) × Option (StatValues Str) × Dictionary
  | [] => (acc, st, d)
  | none :: rest => tagScan d st (acc ++ [none]) rest
  | some v :: rest =>
    let st' := match st with
      | some s => some (s.update_string v)
      | none => some (StatValues.init v)
    let idd := d.lookup_value_or_insert v
    tagScan idd.2 st' (acc ++ [some idd.1]) rest

/-- `Column::new_from_typed_values`: a new column pre-padded with
`row_count` nulls, statistics initialized from the first non-null value.
The `stats.expect("can't insert ... with no values")` panic on an all-null
input is modelled as `none`. -/
def Column.new_from_typed_values (dictionary : Dictionary) (row_count : Nat)
    (logical_type : LogicalColumnType) (values : TypedValuesIterator) :
    Option (Column × Dictionary) :=
  match values with
  | .string vals =>
    match logical_type with
    | .tag =>
      let r := tagScan dictionary none [] vals
      match r.2.1 with
      | some s => some (.tag (List.replicate row_count none ++ r.1) s, r.2.2)
      | none => none
    | .field =>
      match statsScan StatValues.update_string none vals with
      | some s => some (.string (List.replicate row_count none ++ vals) s, dictionary)
      | none => none
  | .i64 vals =>
    match statsScan StatValues.updateI64 none vals with
    | some s => some (.i64 (List.replicate row_count none ++ vals) s, dictionary)
    | none => none
  | .f64 vals =>
    match statsScan StatValues.updateF64 none vals with
    | some s => some (.f64 (List.replicate row_count none ++ vals) s, dictionary)
    | none => none
  | .u64 vals =>
    match statsScan StatValues.updateU64 none vals with
    | some s => some (.u64 (List.replicate row_count none ++ vals) s, dictionary)
    | none => none
  | .bool vals =>
    match statsScan StatValues.updateBool none vals with
    | some s => some (.bool (List.replicate row_count none ++ vals) s, dictionary)
    | none => none

/-- The push loop of `push_typed_values` for scalar kinds: update statistics
on each non-null value, push every value (nulls included). -/
def pushScan (upd : StatValues α → α → StatValues α) (st : StatValues α) :
    List (Option α) → StatValues α
  | [] => st
  | none :: rest => pushScan upd st rest
  | some v :: rest => pushScan upd (upd st v) rest

/-- The push loop of the tag case of `push_typed_values`: intern each
non-null value, threading the dictionary means ids are allocated in input
order. -/
def tagPushScan (d : Dictionary) (st : StatValues Str) (acc : List (Option Nat)) :
    List (Option Str) → List (Option Nat) × StatValues Str × Dictionary
  | [] => (acc, st, d)
  | none :: rest => tagPushScan d st (acc ++ [none]) rest
  | some v :: rest =>
    let st' := st.update_string v
    let idd := d.lookup_value_or_insert v
    tagPushScan idd.2 st' (acc ++ [some idd.1]) rest

/-- `Column::push_typed_values`.  The Rust method mutates `self` and the
dictionary behind `&mut` and returns `Result<()>`; the model returns the
error slot together with the column and dictionary after the call. -/
def Column.push_typed_values (c : Column) (dictionary : Dictionary)
    (logical_type : LogicalColumnType) (values : TypedValuesIterator) :
    Option ColumnError × Column × Dictionary :=
  match c, values with
  | .bool col stats, .bool vals =>
    (none, .bool (col ++ vals) (pushScan StatValues.updateBool stats vals), dictionary)
  | .i64 col stats, .i64 vals =>
    (none, .i64 (col ++ vals) (pushScan StatValues.updateI64 stats vals), dictionary)
  | .f64 col stats, .f64 vals =>
    (none, .f64 (col ++ vals) (pushScan StatValues.updateF64 stats vals), dictionary)
  | .u64 col stats, .u64 vals =>
    (none, .u64 (col ++ vals) (pushScan StatValues.updateU64 stats vals), dictionary)
  | .string col stats, .string vals =>
    if logical_type ≠ .field then
      (some (.typeMismatch "String" "tag"), .string col stats, dictionary)
    else
      (none, .string (col ++ vals) (pushScan StatValues.update_string stats vals), dictionary)
  | .tag col stats, .string vals =>
    if logical_type ≠ .tag then
      (some (.typeMismatch "tag" "String"), .tag col stats, dictionary)
    else
      let r := tagPushScan dictionary stats col vals
      (none, .tag r.1 r.2.1, r.2.2)
  | existing, vals =>
    (some (.typeMismatch existing.type_description vals.type_description), existing, dictionary)

/-- `Column::push_nulls_to_len`: `if len > vals.len() { vals.resize(len, None) }`. -/
def Column.push_nulls_to_len (c : Column) (len : Nat) : Column :=
  match c with
  | .tag vals st =>
    .tag (if len > vals.length then vals ++ List.replicate (len - vals.length) none
          else vals) st
  | .i64 vals st =>
    .i64 (if len > vals.length then vals ++ List.replicate (len - vals.length) none
          else vals) st
  | .f64 vals st =>
    .f64 (if len > vals.length then vals ++ List.replicate (len - vals.length) none
          else vals) st
  | .u64 vals st =>
    .u64 (if len > vals.length then vals ++ List.replicate (len - vals.length) none
          else vals) st
  | .bool vals st =>
    .bool (if len > vals.length then vals ++ List.replicate (len - vals.length) none
           else vals) st
  | .string vals st =>
    .string (if len > vals.length then vals ++ List.replicate (len - vals.length) none
             else vals) st

/- ## Definitions used by the statements of the claims -/

/-- Strict byte-wise order as a proposition. -/
def strLt (a b : Str) : Prop := lexLt a b = true

/-- A common cell representation across the six column kinds, used to state
append-order properties uniformly. -/
inductive CellVal where
  | b (v : Bool)
  | i (v : Int)
  | n (v : Nat)
  | s (v : Str)
deriving DecidableEq, Repr

def cellsOf (f : α → CellVal) (vs : List (Option α)) : List (Option CellVal) :=
  vs.map (Option.map f)

/-- The column's value sequence, kind-erased (tag cells are dictionary ids,
f64 cells are bit patterns). -/
def Column.cells : Column → List (Option CellVal)
  | .f64 v _ => cellsOf .n v
  | .i64 v _ => cellsOf .i v
  | .u64 v _ => cellsOf .n v
  | .string v _ => cellsOf .s v
  | .bool v _ => cellsOf .b v
  | .tag v _ => cellsOf .n v

/-- The `TypeMismatch` condition of `push_typed_values` as the claim states
it: the value kind differs from the column kind, or a string input's
`logical_type` is `Tag` while the column is `String`, or `Field` while the
column is `Tag`. -/
def typeMismatchCond (c : Column) (lt : LogicalColumnType) (v : TypedValuesIterator) : Bool :=
  match c, v with
  | .bool _ _, .bool _ => false
  | .i64 _ _, .i64 _ => false
  | .f64 _ _, .f64 _ => false
  | .u64 _ _, .u64 _ => false
  | .string _ _, .string _ => lt == .tag
  | .tag _ _, .string _ => lt == .field
  | _, _ => true

/-- Intern a run of nullable strings front to back, threading the
dictionary: the ids a tag append produces. -/
def internAll (d : Dictionary) : List (Option Str) → List (Option Nat) × Dictionary
  | [] => ([], d)
  | none :: rest =>
    let r := internAll d rest
    (none :: r.1, r.2)
  | some v :: rest =>
    let idd := d.lookup_value_or_insert v
    let r := internAll idd.2 rest
    (some idd.1 :: r.1, r.2)

/-- The cells a successful `push_typed_values` appends: the inputs in input
order — interned through the dictionary when the column is a tag column,
verbatim otherwise. -/
def expectedAppend (c : Column) (d : Dictionary) (v : TypedValuesIterator) :
    List (Option CellVal) :=
  match c, v with
  | .tag _ _, .string vs => cellsOf .n (internAll d vs).1
  | _, .string vs => cellsOf .s vs
  | _, .i64 vs => cellsOf .i vs
  | _, .f64 vs => cellsOf .n vs
  | _, .u64 vs => cellsOf .n vs
  | _, .bool vs => cellsOf .b vs

/-- The dictionary a successful `push_typed_values` leaves behind: extended
by the interned tags when the column is a tag column, untouched otherwise. -/
def expectedDict (c : Column) (d : Dictionary) (v : TypedValuesIterator) : Dictionary :=
  match c, v with
  | .tag _ _, .string vs => (internAll d vs).2
  | _, _ => d

/-- An input run consisting only of nulls. -/
def TypedValuesIterator.allNull : TypedValuesIterator → Bool
  | .string vs => vs.all Option.isNone
  | .i64 vs => vs.all Option.isNone
  | .f64 vs => vs.all Option.isNone
  | .u64 vs => vs.all Option.isNone
  | .bool vs => vs.all Option.isNone

/-- One mutation of an existing column (the operations of the C6 claim that
can follow column creation). -/
inductive ColumnOp where
  | push (logical_type : LogicalColumnType) (values : TypedValuesIterator)
  | pushNulls (len : Nat)
deriving DecidableEq, Repr

/-- Run one operation on the column and dictionary; a failed push leaves the
state as the call found it (mirroring `&mut self` plus an `Err` return). -/
def applyOp (s : Column × Dictionary) : ColumnOp → Column × Dictionary
  | .push lt v => (s.1.push_typed_values s.2 lt v).2
  | .pushNulls n => (s.1.push_nulls_to_len n, s.2)

/-- Run a sequence of operations front to back. -/
def applyOps (ops : List ColumnOp) (s : Column × Dictionary) : Column × Dictionary :=
  ops.foldl applyOp s

/-- `count` of an optional statistics slot (0 while uninitialized). -/
def optCount : Option (StatValues α) → Nat
  | none => 0
  | some s => s.count

/-- `null_count` of an optional statistics slot (0 while uninitialized). -/
def optNullCount : Option (StatValues α) → Nat
  | none => 0
  | some s => s.null_count

/- ## Concrete inputs for counterexamples and witnesses -/

/-- A line `cpu f=true` with no timestamp (measurement `cpu`, one bool
field `f`). -/
def lineNoTs1 : ParsedLine :=
  { series := { measurement := [99, 112, 117], tag_set := none },
    field_set := [([102], .boolean true)], timestamp := none }

/-- A second timestampless line `cpu f=false`. -/
def lineNoTs2 : ParsedLine :=
  { series := { measurement := [99, 112, 117], tag_set := none },
    field_set := [([102], .boolean false)], timestamp := none }

/-- A partitioner assigning every line the constant key `""`. -/
def constKeyFn : ParsedLine → Int → Str := fun _ _ => []

/-- A wall clock frozen at 0 ns. -/
def clockAt0 : Nat → Int := fun _ => 0

/-- A wall clock frozen at 1 ns. -/
def clockAt1 : Nat → Int := fun _ => 1

/-- A wall clock whose k-th reading is k ns: successive readings differ. -/
def tickingClock : Nat → Int := fun k => (k : Int)

/- ## Lemmas about the byte-wise order -/

theorem lexLt_irrefl (a : Str) : lexLt a a = false := by
  induction a with
  | nil => rfl
  | cons x xs ih => simp [lexLt, ih]

theorem lexLt_trans : ∀ {a b c : Str},
    lexLt a b = true → lexLt b c = true → lexLt a c = true := by
  intro a
  induction a with
  | nil =>
    intro b c hab hbc
    cases b with
    | nil => simp [lexLt] at hab
    | cons y ys =>
      cases c with
      | nil => simp [lexLt] at hbc
      | cons z zs => simp [lexLt]
  | cons x xs ih =>
    intro b c hab hbc
    cases b with
    | nil => simp [lexLt] at hab
    | cons y ys =>
      cases c with
      | nil => simp [lexLt] at hbc
      | cons z zs =>
        simp only [lexLt] at hab hbc ⊢
        rcases Nat.lt_trichotomy x y with hxy | hxy | hxy
        · rcases Nat.lt_trichotomy y z with hyz | hyz | hyz
          · have hxz : x < z := Nat.lt_trans hxy hyz
            simp [hxz]
          · subst hyz
            simp [hxy]
          · have hyz' : ¬ y < z := Nat.lt_asymm hyz
            have hyz'' : y ≠ z := Nat.ne_of_gt hyz
            simp [hyz', hyz''] at hbc
        · subst hxy
          have hxx : ¬ x < x := Nat.lt_irrefl x
          simp [hxx] at hab
          rcases Nat.lt_trichotomy x z with hxz | hxz | hxz
          · simp [hxz]
          · subst hxz
            simp [hxx] at hbc ⊢
            exact ih hab hbc
          · have hxz' : ¬ x < z := Nat.lt_asymm hxz
            have hxz'' : x ≠ z := Nat.ne_of_gt hxz
            simp [hxz', hxz''] at hbc
        · have hxy' : ¬ x < y := Nat.lt_asymm hxy
          have hxy'' : x ≠ y := Nat.ne_of_gt hxy
          simp [hxy', hxy''] at hab

theorem lexLt_conn : ∀ {a b : Str},
    lexLt a b = false → lexLt b a = false → a = b := by
  intro a
  induction a with
  | nil =>
    intro b hab _
    cases b with
    | nil => rfl
    | cons y ys => simp [lexLt] at hab
  | cons x xs ih =>
    intro b hab hba
    cases b with
    | nil => simp [lexLt] at hba
    | cons y ys =>
      simp only [lexLt] at hab hba
      by_cases hxy : x < y
      · simp [hxy] at hab
      · by_cases hyx : y < x
        · simp [hyx] at hba
        · have hxy' : x = y := Nat.le_antisymm (Nat.le_of_not_lt hyx) (Nat.le_of_not_lt hxy)
          subst hxy'
          simp [Nat.lt_irrefl] at hab hba
          rw [ih hab hba]

/- ## Round-trip lemmas: each parser consumes exactly the encoding it is the
inverse of and returns the remaining tokens untouched. -/

theorem parseInt_serInt (i : Int) (r : List Nat) :
    parseInt (serInt i ++ r) = some (i, r) := by
  cases i <;> simp [serInt, parseInt]

theorem parseStr_serStr (s : Str) (r : List Nat) :
    parseStr (serStr s ++ r) = some (s, r) := by
  simp [serStr, parseStr]

theorem parseOpt_serOpt (p : List Nat → Option (α × List Nat)) (f : α → List Nat)
    (hp : ∀ x r, p (f x ++ r) = some (x, r)) (o : Option α) (r : List Nat) :
    parseOpt p (serOpt f o ++ r) = some (o, r) := by
  cases o with
  | none => simp [serOpt, parseOpt]
  | some x => simp [serOpt, parseOpt, hp]

theorem parseItems_serItems (p : List Nat → Option (α × List Nat)) (f : α → List Nat)
    (hp : ∀ x r, p (f x ++ r) = some (x, r)) :
    ∀ (xs : List α) (r : List Nat),
      parseItems p xs.length (serItems f xs ++ r) = some (xs, r) := by
  intro xs
  induction xs with
  | nil => intro r; simp [serItems, parseItems]
  | cons x xs ih =>
    intro r
    simp [serItems, parseItems, List.append_assoc, hp, ih]

theorem parseList_serList (p : List Nat → Option (α × List Nat)) (f : α → List Nat)
    (hp : ∀ x r, p (f x ++ r) = some (x, r)) (xs : List α) (r : List Nat) :
    parseList p (serList f xs ++ r) = some (xs, r) := by
  simp [serList, parseList, parseTok, parseItems_serItems p f hp]

theorem parseColumnValue_ser (v : ColumnValue) (r : List Nat) :
    parseColumnValue (serColumnValue v ++ r) = some (v, r) := by
  cases v with
  | tag s => simp [serColumnValue, parseColumnValue, parseStr_serStr]
  | i64 i => simp [serColumnValue, parseColumnValue, parseInt_serInt]
  | u64 n => simp [serColumnValue, parseColumnValue]
  | f64 b => simp [serColumnValue, parseColumnValue]
  | bool b => cases b <;> simp [serColumnValue, parseColumnValue]
  | str s => simp [serColumnValue, parseColumnValue, parseStr_serStr]

theorem parseValue_ser (v : Value) (r : List Nat) :
    parseValue (serValue v ++ r) = some (v, r) := by
  simp [serValue, parseValue, List.append_assoc, parseStr_serStr, parseColumnValue_ser]

theorem parseRow_ser (row : Row) (r : List Nat) :
    parseRow (serRow row ++ r) = some (row, r) := by
  simp [serRow, parseRow, parseList_serList parseValue serValue parseValue_ser]

theorem parseTableWriteBatch_ser (t : TableWriteBatch) (r : List Nat) :
    parseTableWriteBatch (serTableWriteBatch t ++ r) = some (t, r) := by
  simp [serTableWriteBatch, parseTableWriteBatch, List.append_assoc, parseStr_serStr,
    parseList_serList parseRow serRow parseRow_ser]

theorem parseWriteBufferEntry_ser (e : WriteBufferEntry) (r : List Nat) :
    parseWriteBufferEntry (serWriteBufferEntry e ++ r) = some (e, r) := by
  simp [serWriteBufferEntry, parseWriteBufferEntry, List.append_assoc,
    parseOpt_serOpt parseStr serStr parseStr_serStr,
    parseList_serList parseTableWriteBatch serTableWriteBatch parseTableWriteBatch_ser]

theorem parseWriteBufferBatch_ser (b : WriteBufferBatch) (r : List Nat) :
    parseWriteBufferBatch (serWriteBufferBatch b ++ r) = some (b, r) := by
  simp [serWriteBufferBatch, parseWriteBufferBatch,
    parseOpt_serOpt (parseList parseWriteBufferEntry) (serList serWriteBufferEntry)
      (parseList_serList parseWriteBufferEntry serWriteBufferEntry parseWriteBufferEntry_ser)]

/-- Decoding a freshly framed envelope with a well-formed payload succeeds
and recovers every header field, the payload bytes, and the logical batch. -/
theorem try_from_serEnvelope (w s c : Nat) (b : WriteBufferBatch) :
    ReplicatedWrite.try_from (serEnvelope w s c (some (serWriteBufferBatch b))) =
      some { data := serEnvelope w s c (some (serWriteBufferBatch b)),
             writer := w, sequence := s, checksum := c,
             payload := some (serWriteBufferBatch b),
             write_buffer_batch := some b } := by
  have hopt := parseOpt_serOpt parseStr serStr parseStr_serStr
    (some (serWriteBufferBatch b)) []
  have hb := parseWriteBufferBatch_ser b []
  simp only [List.append_nil] at hopt hb
  simp [ReplicatedWrite.try_from, serEnvelope, parseTok, hopt, hb]

/- ## Lemmas about the sorted-map model of `BTreeMap` -/

theorem bmInsert_keys_mem (k : Str) (v : α) :
    ∀ (m : List (Str × List α)) (x : Str),
      x ∈ (bmInsert k v m).map Prod.fst ↔ x = k ∨ x ∈ m.map Prod.fst := by
  intro m
  induction m with
  | nil => intro x; simp [bmInsert]
  | cons kv rest ih =>
    intro x
    obtain ⟨k', vs⟩ := kv
    simp only [bmInsert]
    cases h1 : lexLt k k'
    · by_cases h2 : k = k'
      · subst h2
        simp [h1]
        try tauto
      · simp [h1, h2, ih]
        try tauto
    · simp [h1]
      try tauto

theorem bmInsert_sorted (k : Str) (v : α) :
    ∀ (m : List (Str × List α)), ((m.map Prod.fst).Pairwise strLt) →
      (((bmInsert k v m).map Prod.fst).Pairwise strLt) := by
  intro m
  induction m with
  | nil => intro _; simp [bmInsert, strLt]
  | cons kv rest ih =>
    intro hs
    obtain ⟨k', vs⟩ := kv
    simp only [List.map_cons, List.pairwise_cons] at hs
    obtain ⟨hhead, htail⟩ := hs
    simp only [bmInsert]
    cases h1 : lexLt k k'
    · by_cases h2 : k = k'
      · subst h2
        simp only [h1, Bool.false_eq_true, if_false, eq_self_iff_true, if_true,
          List.map_cons, List.pairwise_cons]
        exact ⟨hhead, htail⟩
      · simp only [h1, Bool.false_eq_true, if_false, h2, List.map_cons, List.pairwise_cons]
        refine ⟨?_, ih htail⟩
        intro x hx
        rw [bmInsert_keys_mem] at hx
        rcases hx with hx | hx
        · rw [hx]
          cases hl : lexLt k' k
          · exact absurd (lexLt_conn h1 hl) h2
          · exact hl
        · exact hhead x hx
    · simp only [h1, if_true, List.map_cons, List.pairwise_cons, List.mem_cons]
      refine ⟨?_, hhead, htail⟩
      intro x hx
      rcases hx with hx | hx
      · rw [hx]
        exact h1
      · exact lexLt_trans h1 (hhead x hx)

theorem foldl_bmInsert_sorted (keyFn : α → Str) :
    ∀ (xs : List α) (m : List (Str × List α)), ((m.map Prod.fst).Pairwise strLt) →
      (((xs.foldl (fun m x => bmInsert (keyFn x) x m) m).map Prod.fst).Pairwise strLt) := by
  intro xs
  induction xs with
  | nil => intro m hm; simpa using hm
  | cons x xs ih =>
    intro m hm
    exact ih (bmInsert (keyFn x) x m) (bmInsert_sorted (keyFn x) x m hm)

theorem bmOfList_sorted (keyFn : α → Str) (xs : List α) :
    ((bmOfList keyFn xs).map Prod.fst).Pairwise strLt := by
  have h := foldl_bmInsert_sorted keyFn xs []
  simpa [bmOfList] using h (by simp)

theorem foldl_bmInsert_keys_mem (keyFn : α → Str) :
    ∀ (xs : List α) (m : List (Str × List α)) (x : Str),
      x ∈ ((xs.foldl (fun m x => bmInsert (keyFn x) x m) m).map Prod.fst) ↔
        x ∈ m.map Prod.fst ∨ ∃ l, l ∈ xs ∧ keyFn l = x := by
  intro xs
  induction xs with
  | nil => intro m x; simp
  | cons y ys ih =>
    intro m x
    simp only [List.foldl_cons, ih, bmInsert_keys_mem, List.mem_cons]
    constructor
    · rintro ((h | h) | ⟨l, hl, hk⟩)
      · exact .inr ⟨y, .inl rfl, h.symm⟩
      · exact .inl h
      · exact .inr ⟨l, .inr hl, hk⟩
    · rintro (h | ⟨l, hl | hl, hk⟩)
      · exact .inl (.inr h)
      · subst hl; exact .inl (.inl hk.symm)
      · exact .inr ⟨l, hl, hk⟩

theorem bmOfList_keys_mem (keyFn : α → Str) (xs : List α) (x : Str) :
    x ∈ ((bmOfList keyFn xs).map Prod.fst) ↔ ∃ l, l ∈ xs ∧ keyFn l = x := by
  have h := foldl_bmInsert_keys_mem keyFn xs [] x
  simpa [bmOfList] using h

theorem bmInsert_mem_val (k : Str) (v : α) :
    ∀ (m : List (Str × List α)) (kv : Str × List α), kv ∈ bmInsert k v m →
      ∀ y ∈ kv.2, y = v ∨ ∃ kv', kv' ∈ m ∧ y ∈ kv'.2 := by
  intro m
  induction m with
  | nil =>
    intro kv hkv y hy
    simp only [bmInsert, List.mem_singleton] at hkv
    subst hkv
    simp at hy
    exact .inl hy
  | cons kv₀ rest ih =>
    intro kv hkv y hy
    obtain ⟨k', vs⟩ := kv₀
    simp only [bmInsert] at hkv
    cases h1 : lexLt k k'
    · simp only [h1, Bool.false_eq_true, if_false] at hkv
      by_cases h2 : k = k'
      · subst h2
        simp only [eq_self_iff_true, if_true, List.mem_cons] at hkv
        rcases hkv with hkv | hkv
        · subst hkv
          simp only at hy
          rcases List.mem_append.mp hy with hy | hy
          · exact .inr ⟨(k, vs), List.mem_cons_self _ _, hy⟩
          · simp at hy
            exact .inl hy
        · exact .inr ⟨kv, List.mem_cons_of_mem _ hkv, hy⟩
      · simp only [h2, if_false, List.mem_cons] at hkv
        rcases hkv with hkv | hkv
        · subst hkv
          exact .inr ⟨(k', vs), List.mem_cons_self _ _, hy⟩
        · rcases ih kv hkv y hy with h | ⟨kv', hkv', hy'⟩
          · exact .inl h
          · exact .inr ⟨kv', List.mem_cons_of_mem _ hkv', hy'⟩
    · simp only [h1, if_true, List.mem_cons] at hkv
      rcases hkv with hkv | hkv | hkv
      · subst hkv
        simp at hy
        exact .inl hy
      · subst hkv
        exact .inr ⟨(k', vs), List.mem_cons_self _ _, hy⟩
      · exact .inr ⟨kv, List.mem_cons_of_mem _ hkv, hy⟩

theorem foldl_bmInsert_mem_val (keyFn : α → Str) :
    ∀ (xs : List α) (m : List (Str × List α)) (kv : Str × List α),
      kv ∈ xs.foldl (fun m x => bmInsert (keyFn x) x m) m →
      ∀ y ∈ kv.2, (∃ kv', kv' ∈ m ∧ y ∈ kv'.2) ∨ y ∈ xs := by
  intro xs
  induction xs with
  | nil =>
    intro m kv hkv y hy
    exact .inl ⟨kv, hkv, hy⟩
  | cons x xs ih =>
    intro m kv hkv y hy
    simp only [List.foldl_cons] at hkv
    rcases ih (bmInsert (keyFn x) x m) kv hkv y hy with ⟨kv', hkv', hy'⟩ | h
    · rcases bmInsert_mem_val (keyFn x) x m kv' hkv' y hy' with h | ⟨kv'', hkv'', hy''⟩
      · exact .inr (h ▸ List.mem_cons_self _ _)
      · exact .inl ⟨kv'', hkv'', hy''⟩
    · exact .inr (List.mem_cons_of_mem _ h)

theorem bmOfList_mem_val (keyFn : α → Str) (xs : List α) (kv : Str × List α)
    (hkv : kv ∈ bmOfList keyFn xs) : ∀ y ∈ kv.2, y ∈ xs := by
  intro y hy
  rcases foldl_bmInsert_mem_val keyFn xs [] kv hkv y hy with ⟨kv', hkv', _⟩ | h
  · simp at hkv'
  · exact h

/- ## Lemmas about counter-threaded mapping -/

theorem mapAccum_fst_map (f : Nat → α → β × Nat) (g : β → γ) (h : α → γ)
    (hf : ∀ c x, g (f c x).1 = h x) :
    ∀ (xs : List α) (cnt : Nat), ((mapAccum f cnt xs).1).map g = xs.map h := by
  intro xs
  induction xs with
  | nil => intro cnt; simp [mapAccum]
  | cons x xs ih =>
    intro cnt
    simp [mapAccum, hf, ih]

theorem mapAccum_mem (f : Nat → α → β × Nat) :
    ∀ (xs : List α) (cnt : Nat) (y : β), y ∈ (mapAccum f cnt xs).1 →
      ∃ c x, x ∈ xs ∧ y = (f c x).1 := by
  intro xs
  induction xs with
  | nil => intro cnt y hy; simp [mapAccum] at hy
  | cons x xs ih =>
    intro cnt y hy
    simp only [mapAccum, List.mem_cons] at hy
    rcases hy with hy | hy
    · exact ⟨cnt, x, List.mem_cons_self _ _, hy⟩
    · obtain ⟨c, x', hx', hy'⟩ := ih _ y hy
      exact ⟨c, x', List.mem_cons_of_mem _ hx', hy'⟩

/- ## Derived facts about the built batch -/

theorem strLt_ne {a b : Str} (h : strLt a b) : a ≠ b := by
  intro hab
  have h' : lexLt a b = true := h
  rw [hab, lexLt_irrefl] at h'
  exact Bool.false_ne_true h'

/-- The partition keys of the built entries are the sorted-map keys, each
wrapped in `some`. -/
theorem entries_map_partition_key (now : Nat → Int) (cnt : Nat)
    (pw : List (Str × List ParsedLine)) :
    ((mapAccum (fun c kv => add_write_entry now c (some kv.1) kv.2) cnt pw).1).map
        WriteBufferEntry.partition_key = (pw.map Prod.fst).map some := by
  rw [mapAccum_fst_map _ WriteBufferEntry.partition_key (fun kv => some kv.1)
    (fun _ _ => rfl) pw cnt]
  rw [List.map_map]
  rfl

/-- The table names of a built entry are the keys of the per-measurement
sorted map of that partition's lines. -/
theorem add_write_entry_table_names (now : Nat → Int) (cnt : Nat) (k : Option Str)
    (ls : List ParsedLine) :
    ((add_write_entry now cnt k ls).1.table_batches).map TableWriteBatch.name =
      (bmOfList (fun l => l.series.measurement) ls).map Prod.fst := by
  exact mapAccum_fst_map _ TableWriteBatch.name Prod.fst (fun _ _ => rfl) _ cnt

/- ## Claim theorems: the envelope -/

/-- C1: for every writer id, sequence number, line list, partitioner (and
clock), decoding the bytes produced by `lines_to_replicated_write` succeeds
and yields an envelope whose `writer_and_sequence()` is `(writer, sequence)`
and whose `checksum` field is the CRC32 (IEEE) of the payload bytes. -/
theorem encode_decode_writer_sequence_checksum (w s : Nat) (lines : List ParsedLine)
    (partitioner : ParsedLine → Int → Str) (now : Nat → Int) :
    ∃ rw, lines_to_replicated_write w s lines partitioner now = some rw ∧
      rw.writer_and_sequence = (w, s) ∧
      ∃ p, rw.payload = some p ∧ rw.checksum = crc32 p := by
  have h := try_from_serEnvelope w s
    (crc32 (serWriteBufferBatch
      (buildWriteBufferBatch (fun line => partitioner line (now 0)) lines now 1).1))
    (buildWriteBufferBatch (fun line => partitioner line (now 0)) lines now 1).1
  exact ⟨_, h, rfl, _, rfl, rfl⟩

/-- C2 (amended): encoding is deterministic given equal inputs and equal
wall-clock readings — two invocations that observe the same clock yield the
same envelope, hence byte-identical payloads and identical checksums. -/
theorem encode_deterministic_same_clock (w s : Nat) (lines : List ParsedLine)
    (partitioner : ParsedLine → Int → Str) (now₁ now₂ : Nat → Int)
    (h : ∀ k, now₁ k = now₂ k) :
    lines_to_replicated_write w s lines partitioner now₁ =
      lines_to_replicated_write w s lines partitioner now₂ := by
  rw [funext h]

/-- Witness for the amended C2 at a concrete input. -/
theorem encode_deterministic_same_clock_witness :
    lines_to_replicated_write 7 42 [lineNoTs1] constKeyFn clockAt0 =
      lines_to_replicated_write 7 42 [lineNoTs1] constKeyFn clockAt0 :=
  encode_deterministic_same_clock 7 42 [lineNoTs1] constKeyFn clockAt0 clockAt0
    (fun _ => rfl)

/-- C2 counterexample: with equal inputs `(writer, sequence, lines,
partitioner)` but the hidden wall clock differing between the two
invocations (a line has no timestamp), the payloads differ — encoding is
not deterministic in the inputs the claim lists. -/
theorem encode_not_deterministic_across_clocks :
    (lines_to_replicated_write 7 42 [lineNoTs1] constKeyFn clockAt0).map
        ReplicatedWrite.payload ≠
      (lines_to_replicated_write 7 42 [lineNoTs1] constKeyFn clockAt1).map
        ReplicatedWrite.payload := by
  decide

/-- C3: in the encoded payload the entries are sorted ascending by
partition key (byte-wise), the table batches of each entry are sorted
ascending by table name, and each row's values are the originating line's
tags in input order, then its fields in input order, then one trailing
`time` value. -/
theorem payload_canonical_ordering (keyFn : ParsedLine → Str) (lines : List ParsedLine)
    (now : Nat → Int) (cnt : Nat) :
    ∃ (es : List WriteBufferEntry) (ks : List Str),
      parseWriteBufferBatch (split_lines_into_write_entry_partitions keyFn lines now cnt).1 =
        some ((buildWriteBufferBatch keyFn lines now cnt).1, []) ∧
      (buildWriteBufferBatch keyFn lines now cnt).1.entries = some es ∧
      es.map WriteBufferEntry.partition_key = ks.map some ∧
      ks.Pairwise strLt ∧
      es.Forall (fun e =>
        ((e.table_batches).map TableWriteBatch.name).Pairwise strLt) ∧
      es.Forall (fun e => e.table_batches.Forall (fun t => t.rows.Forall (fun row =>
        ∃ line, line ∈ lines ∧ ∃ tv : Int,
          row.values = rowTagValues line ++ rowFieldValues line ++ [timeValue tv]))) := by
  have hparse := parseWriteBufferBatch_ser (buildWriteBufferBatch keyFn lines now cnt).1 []
  rw [List.append_nil] at hparse
  refine ⟨_, (bmOfList keyFn lines).map Prod.fst, hparse, rfl,
    entries_map_partition_key now cnt (bmOfList keyFn lines),
    bmOfList_sorted keyFn lines, ?_, ?_⟩
  · rw [List.forall_iff_forall_mem]
    intro e he
    obtain ⟨c, kv, _, he'⟩ := mapAccum_mem _ _ _ _ he
    rw [he', add_write_entry_table_names]
    exact bmOfList_sorted _ _
  · rw [List.forall_iff_forall_mem]
    intro e he
    obtain ⟨c, kv, hkv, he'⟩ := mapAccum_mem _ _ _ _ he
    rw [List.forall_iff_forall_mem]
    intro t ht
    rw [he'] at ht
    obtain ⟨c', kv', hkv', ht'⟩ := mapAccum_mem _ _ _ _ ht
    rw [List.forall_iff_forall_mem]
    intro row hrow
    rw [ht'] at hrow
    obtain ⟨c'', line, hline, hrow'⟩ := mapAccum_mem _ _ _ _ hrow
    have hline₁ : line ∈ kv.2 := bmOfList_mem_val _ kv.2 kv' hkv' line hline
    have hline₂ : line ∈ lines := bmOfList_mem_val keyFn lines kv hkv line hline₁
    refine ⟨line, hline₂, ?_, ?_⟩
    · exact match line.timestamp with
        | some t => t
        | none => now c''
    · rw [hrow']
      rfl

/-- C4 (the code at the failing input): two timestampless lines in one
batch under a clock whose readings advance.  `lines_to_replicated_write`
captures `default_time = now 0` but `add_line` takes a fresh `Utc::now()`
per line, so the two rows receive the distinct readings `now 1 = 1` and
`now 2 = 2`, neither of them the batch's `t₀ = now 0 = 0`. -/
theorem per_line_clock_readings_at_failing_input :
    (buildWriteBufferBatch (fun l => constKeyFn l (tickingClock 0)) [lineNoTs1, lineNoTs2]
        tickingClock 1).1 =
      { entries := some [
          { partition_key := some [],
            table_batches := [
              { name := [99, 112, 117],
                rows := [
                  { values := [{ column := [102], value := .bool true },
                               { column := TIME_COLUMN_NAME, value := .i64 1 }] },
                  { values := [{ column := [102], value := .bool false },
                               { column := TIME_COLUMN_NAME, value := .i64 2 }] }] }] }] } ∧
    (1 : Int) ≠ tickingClock 0 ∧ (2 : Int) ≠ tickingClock 0 ∧ (1 : Int) ≠ 2 := by
  decide

/-- C9: decoding an envelope whose payload field is absent succeeds and
`entry_count()` is 0; on every encoded envelope `entry_count()` is the
number of write-buffer entries — one per distinct partition key of the
input, the keys being exactly the partitioner's outputs on the lines. -/
theorem entry_count_semantics :
    (∀ w s c : Nat, ∃ rw,
      ReplicatedWrite.try_from (serEnvelope w s c none) = some rw ∧ rw.entry_count = 0) ∧
    (∀ (w s : Nat) (lines : List ParsedLine) (partitioner : ParsedLine → Int → Str)
        (now : Nat → Int),
      ∃ (rw : ReplicatedWrite) (es : List WriteBufferEntry) (ks : List Str),
      lines_to_replicated_write w s lines partitioner now = some rw ∧
      rw.entry_count = es.length ∧
      rw.write_buffer_batch = some { entries := some es } ∧
      es.map WriteBufferEntry.partition_key = ks.map some ∧
      ks.Nodup ∧
      (∀ k, k ∈ ks ↔ ∃ line, line ∈ lines ∧ partitioner line (now 0) = k)) := by
  constructor
  · intro w s c
    exact ⟨_, rfl, rfl⟩
  · intro w s lines partitioner now
    have h := try_from_serEnvelope w s
      (crc32 (serWriteBufferBatch
        (buildWriteBufferBatch (fun line => partitioner line (now 0)) lines now 1).1))
      (buildWriteBufferBatch (fun line => partitioner line (now 0)) lines now 1).1
    refine ⟨_, _,
      (bmOfList (fun line => partitioner line (now 0)) lines).map Prod.fst,
      h, ?_, rfl, entries_map_partition_key now 1 _, ?_, ?_⟩
    · rfl
    · exact ((bmOfList_sorted _ lines).imp (fun hab => strLt_ne hab))
    · intro k
      exact bmOfList_keys_mem _ lines k

/- ## Lemmas about the statistics and interning loops -/

theorem nonNulls_cons_none (vs : List (Option α)) : nonNulls (none :: vs) = nonNulls vs := by
  simp [nonNulls]

theorem nonNulls_cons_some (v : α) (vs : List (Option α)) :
    nonNulls (some v :: vs) = nonNulls vs + 1 := by
  simp [nonNulls]

theorem nonNulls_append (a b : List (Option α)) :
    nonNulls (a ++ b) = nonNulls a + nonNulls b := by
  simp [nonNulls]

theorem nonNulls_replicate_none (k : Nat) :
    nonNulls (List.replicate k (none : Option α)) = 0 := by
  induction k with
  | zero => rfl
  | succ k ih => simpa [List.replicate_succ, nonNulls_cons_none] using ih

theorem nonNulls_cellsOf (f : α → CellVal) (vs : List (Option α)) :
    nonNulls (cellsOf f vs) = nonNulls vs := by
  induction vs with
  | nil => rfl
  | cons v vs ih =>
    cases v with
    | none => simpa [cellsOf, nonNulls_cons_none] using ih
    | some v => simpa [cellsOf, nonNulls_cons_some] using ih

theorem nonNullLen_eq_cells (c : Column) : c.nonNullLen = nonNulls c.cells := by
  cases c <;> simp [Column.nonNullLen, Column.cells, nonNulls_cellsOf]

theorem statsScan_counts (upd : StatValues α → α → StatValues α)
    (hc : ∀ s v, (upd s v).count = s.count + 1)
    (hn : ∀ s v, (upd s v).null_count = s.null_count) :
    ∀ (vs : List (Option α)) (st : Option (StatValues α)),
      optCount (statsScan upd st vs) = optCount st + nonNulls vs ∧
      optNullCount (statsScan upd st vs) = optNullCount st := by
  intro vs
  induction vs with
  | nil =>
    intro st
    simp [statsScan, nonNulls]
  | cons v vs ih =>
    intro st
    cases v with
    | none => simpa [statsScan, nonNulls_cons_none] using ih st
    | some v =>
      cases st with
      | some s =>
        have h := ih (some (upd s v))
        simp only [statsScan, optCount, optNullCount] at h ⊢
        rw [h.1, h.2, hc, hn, nonNulls_cons_some]
        omega
      | none =>
        have h := ih (some (StatValues.init v))
        simp only [statsScan, optCount, optNullCount] at h ⊢
        rw [h.1, h.2, nonNulls_cons_some]
        simp [StatValues.init]
        omega

theorem statsScan_allNone (upd : StatValues α → α → StatValues α) :
    ∀ (vs : List (Option α)), vs.all Option.isNone = true →
      ∀ st, statsScan upd st vs = st := by
  intro vs
  induction vs with
  | nil => intro _ st; rfl
  | cons v vs ih =>
    intro h st
    cases v with
    | none =>
      simp only [List.all_cons, Option.isNone_none, Bool.true_and] at h
      exact ih h st
    | some v => simp at h

theorem pushScan_counts (upd : StatValues α → α → StatValues α)
    (hc : ∀ s v, (upd s v).count = s.count + 1)
    (hn : ∀ s v, (upd s v).null_count = s.null_count) :
    ∀ (vs : List (Option α)) (st : StatValues α),
      (pushScan upd st vs).count = st.count + nonNulls vs ∧
      (pushScan upd st vs).null_count = st.null_count := by
  intro vs
  induction vs with
  | nil =>
    intro st
    simp [pushScan, nonNulls]
  | cons v vs ih =>
    intro st
    cases v with
    | none => simpa [pushScan, nonNulls_cons_none] using ih st
    | some v =>
      have h := ih (upd st v)
      simp only [pushScan] at h ⊢
      rw [h.1, h.2, hc, hn, nonNulls_cons_some]
      omega

theorem internAll_nonNulls : ∀ (vs : List (Option Str)) (d : Dictionary),
    nonNulls (internAll d vs).1 = nonNulls vs := by
  intro vs
  induction vs with
  | nil => intro d; rfl
  | cons v vs ih =>
    intro d
    cases v with
    | none => simp [internAll, nonNulls_cons_none, ih]
    | some v => simp [internAll, nonNulls_cons_some, ih]

theorem tagScan_spec : ∀ (vs : List (Option Str)) (d : Dictionary)
    (st : Option (StatValues Str)) (acc : List (Option Nat)),
    (tagScan d st acc vs).1 = acc ++ (internAll d vs).1 ∧
    (tagScan d st acc vs).2.2 = (internAll d vs).2 ∧
    optCount (tagScan d st acc vs).2.1 = optCount st + nonNulls vs ∧
    optNullCount (tagScan d st acc vs).2.1 = optNullCount st := by
  intro vs
  induction vs with
  | nil =>
    intro d st acc
    simp [tagScan, internAll, nonNulls]
  | cons v vs ih =>
    intro d st acc
    cases v with
    | none =>
      have h := ih d st (acc ++ [none])
      simp only [tagScan, internAll, nonNulls_cons_none]
      refine ⟨?_, h.2.1, h.2.2.1, h.2.2.2⟩
      rw [h.1, List.append_assoc]
      rfl
    | some v =>
      cases st with
      | some s =>
        have h := ih (d.lookup_value_or_insert v).2
          (some (s.update_string v)) (acc ++ [some (d.lookup_value_or_insert v).1])
        simp only [tagScan, internAll, optCount, optNullCount] at h ⊢
        refine ⟨?_, h.2.1, ?_, ?_⟩
        · rw [h.1, List.append_assoc]
          rfl
        · rw [h.2.2.1, nonNulls_cons_some]
          simp [StatValues.update_string, StatValues.updateWith, optCount]
          omega
        · rw [h.2.2.2]
          simp [StatValues.update_string, StatValues.updateWith, optNullCount]
      | none =>
        have h := ih (d.lookup_value_or_insert v).2
          (some (StatValues.init v)) (acc ++ [some (d.lookup_value_or_insert v).1])
        simp only [tagScan, internAll, optCount, optNullCount] at h ⊢
        refine ⟨?_, h.2.1, ?_, ?_⟩
        · rw [h.1, List.append_assoc]
          rfl
        · rw [h.2.2.1, nonNulls_cons_some]
          simp [StatValues.init, optCount]
          omega
        · rw [h.2.2.2]
          simp [StatValues.init, optNullCount]

theorem tagScan_allNone : ∀ (vs : List (Option Str)), vs.all Option.isNone = true →
    ∀ d st acc, (tagScan d st acc vs).2.1 = st := by
  intro vs
  induction vs with
  | nil => intro _ d st acc; rfl
  | cons v vs ih =>
    intro h d st acc
    cases v with
    | none =>
      simp only [List.all_cons, Option.isNone_none, Bool.true_and] at h
      exact ih h d st (acc ++ [none])
    | some v => simp at h

theorem tagPushScan_spec : ∀ (vs : List (Option Str)) (d : Dictionary)
    (st : StatValues Str) (acc : List (Option Nat)),
    (tagPushScan d st acc vs).1 = acc ++ (internAll d vs).1 ∧
    (tagPushScan d st acc vs).2.2 = (internAll d vs).2 ∧
    (tagPushScan d st acc vs).2.1.count = st.count + nonNulls vs ∧
    (tagPushScan d st acc vs).2.1.null_count = st.null_count := by
  intro vs
  induction vs with
  | nil =>
    intro d st acc
    simp [tagPushScan, internAll, nonNulls]
  | cons v vs ih =>
    intro d st acc
    cases v with
    | none =>
      have h := ih d st (acc ++ [none])
      simp only [tagPushScan, internAll, nonNulls_cons_none]
      refine ⟨?_, h.2.1, h.2.2.1, h.2.2.2⟩
      rw [h.1, List.append_assoc]
      rfl
    | some v =>
      have h := ih (d.lookup_value_or_insert v).2
        (st.update_string v) (acc ++ [some (d.lookup_value_or_insert v).1])
      simp only [tagPushScan, internAll] at h ⊢
      refine ⟨?_, h.2.1, ?_, ?_⟩
      · rw [h.1, List.append_assoc]
        rfl
      · rw [h.2.2.1, nonNulls_cons_some]
        simp [StatValues.update_string, StatValues.updateWith]
        omega
      · rw [h.2.2.2]
        simp [StatValues.update_string, StatValues.updateWith]

theorem ifResize_eq (vals : List (Option α)) (n : Nat) :
    (if n > vals.length then vals ++ List.replicate (n - vals.length) none else vals) =
      vals ++ List.replicate (n - vals.length) none := by
  by_cases h : n > vals.length
  · simp [h]
  · have h0 : n - vals.length = 0 := Nat.sub_eq_zero_of_le (Nat.le_of_not_lt h)
    simp [h, h0]

theorem statsScan_updateWith_counts (mn mx : α → α → α) (vs : List (Option α))
    (st : Option (StatValues α)) :
    optCount (statsScan (StatValues.updateWith mn mx) st vs) = optCount st + nonNulls vs ∧
    optNullCount (statsScan (StatValues.updateWith mn mx) st vs) = optNullCount st :=
  statsScan_counts (StatValues.updateWith mn mx) (fun _ _ => rfl) (fun _ _ => rfl) vs st

theorem pushScan_updateWith_counts (mn mx : α → α → α) (vs : List (Option α))
    (st : StatValues α) :
    (pushScan (StatValues.updateWith mn mx) st vs).count = st.count + nonNulls vs ∧
    (pushScan (StatValues.updateWith mn mx) st vs).null_count = st.null_count :=
  pushScan_counts (StatValues.updateWith mn mx) (fun _ _ => rfl) (fun _ _ => rfl) vs st

theorem push_nulls_preserves_counts (c : Column) (n : Nat) :
    (c.push_nulls_to_len n).statsCount = c.statsCount ∧
    (c.push_nulls_to_len n).statsNullCount = c.statsNullCount ∧
    (c.push_nulls_to_len n).nonNullLen = c.nonNullLen := by
  cases c <;>
    simp [Column.push_nulls_to_len, ifResize_eq, Column.statsCount, Column.statsNullCount,
      Column.nonNullLen, nonNulls_append, nonNulls_replicate_none]

/- ## Claim theorems: the typed column -/

/-- C5: `push_typed_values` fails with `TypeMismatch` exactly when the value
kind differs from the column kind, or a string input's `logical_type` is
`Tag` while the column is `String` (or `Field` while the column is `Tag`);
every error is a `TypeMismatch`; in all matching cases it returns Ok and
appends all values in input order (tags interned through the dictionary). -/
theorem push_typed_values_spec (c : Column) (d : Dictionary)
    (lt : LogicalColumnType) (v : TypedValuesIterator) :
    ((c.push_typed_values d lt v).1.isSome = typeMismatchCond c lt v) ∧
    (∀ e, (c.push_typed_values d lt v).1 = some e →
        ∃ a b, e = ColumnError.typeMismatch a b) ∧
    ((c.push_typed_values d lt v).1 = none →
        (c.push_typed_values d lt v).2.1.cells = c.cells ++ expectedAppend c d v ∧
        (c.push_typed_values d lt v).2.2 = expectedDict c d v) := by
  refine ⟨?_, ?_, ?_⟩
  · cases c <;> cases v <;> cases lt <;> rfl
  · intro e he
    cases c <;> cases v <;> cases lt <;> simp [Column.push_typed_values] at he <;>
      exact ⟨_, _, he.symm⟩
  · intro hok
    cases c <;> cases v <;> cases lt <;>
      simp_all [Column.push_typed_values, Column.cells, cellsOf, expectedAppend,
        expectedDict, tagPushScan_spec]

/-- Witness for C5: a mismatching push reports `TypeMismatch`, a matching
push appends the values. -/
theorem push_typed_values_spec_witness :
    (∃ a b, ColumnError.typeMismatch "bool" "i64" = ColumnError.typeMismatch a b) ∧
    ((Column.bool [] ⟨true, true, 1, 0⟩).push_typed_values ⟨[]⟩ .field
        (.bool [some false])).2.1.cells =
      (Column.bool [] ⟨true, true, 1, 0⟩).cells ++
        expectedAppend (Column.bool [] ⟨true, true, 1, 0⟩) ⟨[]⟩ (.bool [some false]) :=
  ⟨(push_typed_values_spec (.bool [] ⟨true, true, 1, 0⟩) ⟨[]⟩ .field
      (.i64 [some 3])).2.1 _ (by decide),
   ((push_typed_values_spec (.bool [] ⟨true, true, 1, 0⟩) ⟨[]⟩ .field
      (.bool [some false])).2.2 (by decide)).1⟩

/-- C10: whenever `push_typed_values` returns an error, the column (values
and statistics) and the tag dictionary are exactly as before the call. -/
theorem push_typed_values_error_atomic (c : Column) (d : Dictionary)
    (lt : LogicalColumnType) (v : TypedValuesIterator) (e : ColumnError)
    (h : (c.push_typed_values d lt v).1 = some e) :
    (c.push_typed_values d lt v).2 = (c, d) := by
  cases c <;> cases v <;> cases lt <;> simp_all [Column.push_typed_values]

/-- Witness for C10 at a concrete mismatching push. -/
theorem push_typed_values_error_atomic_witness :
    ((Column.bool [some true] ⟨true, true, 1, 0⟩).push_typed_values ⟨[]⟩ .field
        (.i64 [some 5])).2 = (Column.bool [some true] ⟨true, true, 1, 0⟩, ⟨[]⟩) :=
  push_typed_values_error_atomic (Column.bool [some true] ⟨true, true, 1, 0⟩) ⟨[]⟩
    .field (.i64 [some 5]) (.typeMismatch "bool" "i64") (by decide)

/-- C7 counterexample: on an all-null input, `new_from_typed_values` does
not surface an `EmptyTypedInsert` error value — the Rust function returns
`Self` (there is no error channel) and panics on the
`stats.expect("can't insert ...")`; the panic is modelled as `none`. -/
theorem new_from_all_null_is_panic_not_error :
    Column.new_from_typed_values ⟨[]⟩ 0 .field (.bool [none]) = none := by
  decide

/-- C7 (amended): for every all-null input and every kind,
`new_from_typed_values` panics (modelled `none`) — the stats `expect`
fails — rather than returning an error value. -/
theorem new_from_typed_values_all_null_panics (d : Dictionary) (rc : Nat)
    (lt : LogicalColumnType) (v : TypedValuesIterator) (h : v.allNull = true) :
    Column.new_from_typed_values d rc lt v = none := by
  cases v with
  | string vals =>
    simp only [TypedValuesIterator.allNull] at h
    cases lt with
    | tag => simp [Column.new_from_typed_values, tagScan_allNone vals h]
    | field =>
      simp [Column.new_from_typed_values, statsScan_allNone StatValues.update_string vals h]
  | i64 vals =>
    simp only [TypedValuesIterator.allNull] at h
    simp [Column.new_from_typed_values, statsScan_allNone StatValues.updateI64 vals h]
  | f64 vals =>
    simp only [TypedValuesIterator.allNull] at h
    simp [Column.new_from_typed_values, statsScan_allNone StatValues.updateF64 vals h]
  | u64 vals =>
    simp only [TypedValuesIterator.allNull] at h
    simp [Column.new_from_typed_values, statsScan_allNone StatValues.updateU64 vals h]
  | bool vals =>
    simp only [TypedValuesIterator.allNull] at h
    simp [Column.new_from_typed_values, statsScan_allNone StatValues.updateBool vals h]

/-- Witness for the amended C7. -/
theorem new_from_typed_values_all_null_panics_witness :
    Column.new_from_typed_values ⟨[]⟩ 2 .field (.i64 [none, none]) = none :=
  new_from_typed_values_all_null_panics ⟨[]⟩ 2 .field (.i64 [none, none]) (by decide)

/-- C8: `push_nulls_to_len n` extends the column with null entries —
to exactly `n` when `n > len`, not at all when `n ≤ len` (never truncates)
— and is idempotent. -/
theorem push_nulls_to_len_spec (c : Column) (n : Nat) :
    (c.push_nulls_to_len n).cells = c.cells ++ List.replicate (n - c.len) none ∧
    (c.len < n → (c.push_nulls_to_len n).len = n) ∧
    (n ≤ c.len → c.push_nulls_to_len n = c) ∧
    (c.push_nulls_to_len n).push_nulls_to_len n = c.push_nulls_to_len n := by
  cases c <;>
    (refine ⟨?_, ?_, ?_, ?_⟩ <;>
      simp [Column.push_nulls_to_len, ifResize_eq, Column.cells, Column.len, cellsOf,
        List.map_replicate] <;>
      omega)

/-- Witness for C8: extension reaches exactly `n`; `n ≤ len` leaves the
column untouched. -/
theorem push_nulls_to_len_spec_witness :
    ((Column.i64 [some 1] ⟨1, 1, 1, 0⟩).push_nulls_to_len 3).len = 3 ∧
    (Column.i64 [some 1] ⟨1, 1, 1, 0⟩).push_nulls_to_len 1 =
      Column.i64 [some 1] ⟨1, 1, 1, 0⟩ :=
  ⟨(push_nulls_to_len_spec (Column.i64 [some 1] ⟨1, 1, 1, 0⟩) 3).2.1 (by decide),
   (push_nulls_to_len_spec (Column.i64 [some 1] ⟨1, 1, 1, 0⟩) 1).2.2.1 (by decide)⟩

/-- A freshly created column's statistics count exactly its non-null
entries, and its `null_count` is 0. -/
theorem new_from_stats_consistent (d : Dictionary) (rc : Nat) (lt : LogicalColumnType)
    (v : TypedValuesIterator) (c₀ : Column) (d₀ : Dictionary)
    (h : Column.new_from_typed_values d rc lt v = some (c₀, d₀)) :
    c₀.statsCount = c₀.nonNullLen ∧ c₀.statsNullCount = 0 := by
  cases v with
  | string vals =>
    cases lt with
    | tag =>
      simp only [Column.new_from_typed_values] at h
      cases hs : (tagScan d none [] vals).2.1 with
      | none =>
        rw [hs] at h
        simp at h
      | some s =>
        rw [hs] at h
        simp only [Option.some.injEq, Prod.mk.injEq] at h
        obtain ⟨hc, _⟩ := h
        have hspec := tagScan_spec vals d none []
        have hcnt := hspec.2.2.1
        have hnull := hspec.2.2.2
        rw [hs] at hcnt hnull
        simp only [optCount, optNullCount] at hcnt hnull
        constructor
        · rw [← hc]
          simp only [Column.statsCount, Column.nonNullLen]
          rw [nonNulls_append, nonNulls_replicate_none, hspec.1]
          simp only [List.nil_append]
          rw [internAll_nonNulls]
          omega
        · rw [← hc]
          simp only [Column.statsNullCount]
          exact hnull
    | field =>
      simp only [Column.new_from_typed_values] at h
      cases hs : statsScan StatValues.update_string none vals with
      | none =>
        rw [hs] at h
        simp at h
      | some s =>
        rw [hs] at h
        simp only [Option.some.injEq, Prod.mk.injEq] at h
        obtain ⟨hc, _⟩ := h
        have hcnt := statsScan_counts StatValues.update_string
          (fun _ _ => rfl) (fun _ _ => rfl) vals none
        rw [hs] at hcnt
        simp only [optCount, optNullCount] at hcnt
        constructor
        · rw [← hc]
          simp only [Column.statsCount, Column.nonNullLen]
          rw [nonNulls_append, nonNulls_replicate_none]
          omega
        · rw [← hc]
          simp only [Column.statsNullCount]
          exact hcnt.2
  | i64 vals =>
    simp only [Column.new_from_typed_values] at h
    cases hs : statsScan StatValues.updateI64 none vals with
    | none =>
      rw [hs] at h
      simp at h
    | some s =>
      rw [hs] at h
      simp only [Option.some.injEq, Prod.mk.injEq] at h
      obtain ⟨hc, _⟩ := h
      have hcnt := statsScan_counts StatValues.updateI64
        (fun _ _ => rfl) (fun _ _ => rfl) vals none
      rw [hs] at hcnt
      simp only [optCount, optNullCount] at hcnt
      constructor
      · rw [← hc]
        simp only [Column.statsCount, Column.nonNullLen]
        rw [nonNulls_append, nonNulls_replicate_none]
        omega
      · rw [← hc]
        simp only [Column.statsNullCount]
        exact hcnt.2
  | f64 vals =>
    simp only [Column.new_from_typed_values] at h
    cases hs : statsScan StatValues.updateF64 none vals with
    | none =>
      rw [hs] at h
      simp at h
    | some s =>
      rw [hs] at h
      simp only [Option.some.injEq, Prod.mk.injEq] at h
      obtain ⟨hc, _⟩ := h
      have hcnt := statsScan_counts StatValues.updateF64
        (fun _ _ => rfl) (fun _ _ => rfl) vals none
      rw [hs] at hcnt
      simp only [optCount, optNullCount] at hcnt
      constructor
      · rw [← hc]
        simp only [Column.statsCount, Column.nonNullLen]
        rw [nonNulls_append, nonNulls_replicate_none]
        omega
      · rw [← hc]
        simp only [Column.statsNullCount]
        exact hcnt.2
  | u64 vals =>
    simp only [Column.new_from_typed_values] at h
    cases hs : statsScan StatValues.updateU64 none vals with
    | none =>
      rw [hs] at h
      simp at h
    | some s =>
      rw [hs] at h
      simp only [Option.some.injEq, Prod.mk.injEq] at h
      obtain ⟨hc, _⟩ := h
      have hcnt := statsScan_counts StatValues.updateU64
        (fun _ _ => rfl) (fun _ _ => rfl) vals none
      rw [hs] at hcnt
      simp only [optCount, optNullCount] at hcnt
      constructor
      · rw [← hc]
        simp only [Column.statsCount, Column.nonNullLen]
        rw [nonNulls_append, nonNulls_replicate_none]
        omega
      · rw [← hc]
        simp only [Column.statsNullCount]
        exact hcnt.2
  | bool vals =>
    simp only [Column.new_from_typed_values] at h
    cases hs : statsScan StatValues.updateBool none vals with
    | none =>
      rw [hs] at h
      simp at h
    | some s =>
      rw [hs] at h
      simp only [Option.some.injEq, Prod.mk.injEq] at h
      obtain ⟨hc, _⟩ := h
      have hcnt := statsScan_counts StatValues.updateBool
        (fun _ _ => rfl) (fun _ _ => rfl) vals none
      rw [hs] at hcnt
      simp only [optCount, optNullCount] at hcnt
      constructor
      · rw [← hc]
        simp only [Column.statsCount, Column.nonNullLen]
        rw [nonNulls_append, nonNulls_replicate_none]
        omega
      · rw [← hc]
        simp only [Column.statsNullCount]
        exact hcnt.2

/-- Every column operation preserves "count = non-nulls, null_count = 0". -/
theorem applyOp_preserves (c : Column) (d : Dictionary) (op : ColumnOp)
    (h1 : c.statsCount = c.nonNullLen) (h2 : c.statsNullCount = 0) :
    (applyOp (c, d) op).1.statsCount = (applyOp (c, d) op).1.nonNullLen ∧
    (applyOp (c, d) op).1.statsNullCount = 0 := by
  cases op with
  | pushNulls n =>
    have hp := push_nulls_preserves_counts c n
    simp only [applyOp]
    rw [hp.1, hp.2.1, hp.2.2]
    exact ⟨h1, h2⟩
  | push lt v =>
    simp only [applyOp]
    cases c <;> cases v <;> cases lt <;>
      (simp_all [Column.push_typed_values, Column.statsCount, Column.statsNullCount,
        Column.nonNullLen, nonNulls_append, internAll_nonNulls, tagPushScan_spec,
        pushScan_counts StatValues.updateBool (fun _ _ => rfl) (fun _ _ => rfl),
        pushScan_counts StatValues.updateI64 (fun _ _ => rfl) (fun _ _ => rfl),
        pushScan_counts StatValues.updateF64 (fun _ _ => rfl) (fun _ _ => rfl),
        pushScan_counts StatValues.updateU64 (fun _ _ => rfl) (fun _ _ => rfl),
        pushScan_counts StatValues.update_string (fun _ _ => rfl) (fun _ _ => rfl)])

/-- C6 counterexample: a column created from `[some true, none]` has
`len = 2` but `stats.count + stats.null_count = 1 + 0`: nulls never advance
`null_count`, so the claimed invariant fails as soon as a null is
appended. -/
theorem stats_count_plus_null_count_fails :
    (Column.new_from_typed_values ⟨[]⟩ 0 .field (.bool [some true, none])).map
        (fun p => p.1.statsCount + p.1.statsNullCount == p.1.len) = some false := by
  decide

/-- C6 (amended): for every column reachable by creation followed by any
sequence of pushes and null-paddings, `stats.count` equals the number of
non-null entries and `stats.null_count` stays 0 — so
`count + null_count = len` holds exactly when the column has no nulls. -/
theorem stats_count_tracks_non_nulls (d : Dictionary) (rc : Nat) (lt : LogicalColumnType)
    (v : TypedValuesIterator) (c₀ : Column) (d₀ : Dictionary) (ops : List ColumnOp)
    (h : Column.new_from_typed_values d rc lt v = some (c₀, d₀)) :
    (applyOps ops (c₀, d₀)).1.statsCount = (applyOps ops (c₀, d₀)).1.nonNullLen ∧
    (applyOps ops (c₀, d₀)).1.statsNullCount = 0 := by
  have h0 := new_from_stats_consistent d rc lt v c₀ d₀ h
  have H : ∀ (l : List ColumnOp) (s : Column × Dictionary),
      s.1.statsCount = s.1.nonNullLen → s.1.statsNullCount = 0 →
      (applyOps l s).1.statsCount = (applyOps l s).1.nonNullLen ∧
      (applyOps l s).1.statsNullCount = 0 := by
    intro l
    induction l with
    | nil =>
      intro s hs1 hs2
      exact ⟨hs1, hs2⟩
    | cons op l ih =>
      intro s hs1 hs2
      have hp := applyOp_preserves s.1 s.2 op hs1 hs2
      exact ih (applyOp s op) hp.1 hp.2
  exact H ops (c₀, d₀) h0.1 h0.2

/-- Witness for the amended C6. -/
theorem stats_count_tracks_non_nulls_witness :
    (applyOps [ColumnOp.pushNulls 3] (Column.bool [some true] ⟨true, true, 1, 0⟩,
        (⟨[]⟩ : Dictionary))).1.statsCount =
      (applyOps [ColumnOp.pushNulls 3] (Column.bool [some true] ⟨true, true, 1, 0⟩,
        (⟨[]⟩ : Dictionary))).1.nonNullLen ∧
    (applyOps [ColumnOp.pushNulls 3] (Column.bool [some true] ⟨true, true, 1, 0⟩,
        (⟨[]⟩ : Dictionary))).1.statsNullCount = 0 :=
  stats_count_tracks_non_nulls ⟨[]⟩ 0 .field (.bool [some true])
    (Column.bool [some true] ⟨true, true, 1, 0⟩) ⟨[]⟩ [ColumnOp.pushNulls 3] (by decide)

end InfluxSpec
